import Mathlib

/-!
# Verification of the littlealbert behavior-tree engine

Shallow embedding of the littlealbert behavior-tree library.  The repository
contains several historical snapshots of the same package; the embedding below
follows the sources file by file:

* `Result`, the four-valued outcome enumeration (node.go / tracing.go).
* `Node`, the tree of behavior nodes.  Leaf tasks carry an identifier so that
  the tick function can record, in order, which leaves were ticked; this makes
  the "no child after it is ticked" claims expressible.  Go contexts are an
  opaque type parameter `Ctx` threaded through every tick, exactly as
  `context.Context` is in the source.
* `tick`, the recursive Tick semantics: for each node kind it mirrors the
  corresponding `Tick` method body (sequence.Tick, fallback.Tick,
  parallel.Tick, decorator.Tick, Conditional.Tick, Task.Tick), returning the
  Result together with the ordered list of leaf-task identifiers that were
  ticked.
* `parallelAgg` embeds the threshold aggregation of node.go's parallel.Tick
  (Go `int` arithmetic), `parallelAggTracing` the one of tracing.go's
  parallel.Tick (Go `uint64` arithmetic, where `uint64(len(p.children)) -
  p.thresh` wraps modulo 2^64).
* `Invert`, `Ternary`, `RunUntilSuccess`, `RunUntilFailure` follow the
  decorator helpers of the unnamed source parts.
* `runLoop` and `runLoopBody` follow run.go's `Run`; `runLoopBodyAlt` follows
  the `Run` of the unnamed snapshot that takes explicit durations.
-/

namespace LittleAlbert

/-- Result represents the result of a Node's execution, as declared in
node.go: `Invalid` (the zero value, never a legal return), `Running`,
`Success`, `Failure`, in the iota order of the source. -/
inductive Result where
  | Invalid
  | Running
  | Success
  | Failure
deriving DecidableEq, Repr

/-- A behavior-tree node.  `task` embeds a Go `Task` closure (its `id` is a
label used only to record which leaves a tick touched); `conditional` embeds a
Go `Conditional` predicate; `sequence`, `fallback`, `parallel` and `decorator`
embed the composite structs of node.go / tracing.go.  The decorator's
`Option`al transform embeds the possibly-nil `fn` field checked by
decorator.Tick in tracing.go and in the unnamed core snapshot. -/
inductive Node (Ctx : Type) where
  | task (id : Nat) (f : Ctx → Result)
  | conditional (cond : Ctx → Bool)
  | sequence (children : List (Node Ctx))
  | fallback (children : List (Node Ctx))
  | parallel (thresh : Int) (children : List (Node Ctx))
  | decorator (fn : Option (Ctx → Result → Result)) (child : Node Ctx)

/-- The aggregation at the end of node.go's parallel.Tick, in Go `int`
arithmetic: `successes >= thresh` gives Success, else
`failures >= len(children) - thresh` gives Failure, else Running. -/
def parallelAgg (thresh : Int) (n successes failures : Nat) : Result :=
  if (successes : Int) ≥ thresh then .Success
  else if (failures : Int) ≥ (n : Int) - thresh then .Failure
  else .Running

/-- The modulus of Go's `uint64`. -/
def u64Mod : Nat := 2 ^ 64

/-- Go `uint64` subtraction `a - b`, which wraps modulo 2^64. -/
def u64Sub (a b : Nat) : Nat := (a + (u64Mod - b % u64Mod)) % u64Mod

/-- The aggregation at the end of tracing.go's parallel.Tick, in Go `uint64`
arithmetic: `successes >= p.thresh` gives Success, else
`failures >= (uint64(len(p.children)) - p.thresh)` gives Failure — the
subtraction wrapping modulo 2^64 — else Running. -/
def parallelAggTracing (thresh n successes failures : Nat) : Result :=
  if successes ≥ thresh then .Success
  else if failures ≥ u64Sub n thresh then .Failure
  else .Running

mutual

/-- The Tick semantics.  Returns the node's Result together with the ordered
list of leaf-task identifiers ticked during the call.  Each branch mirrors the
corresponding Go `Tick` method: a task calls its closure; a conditional maps
true to Success and false to Failure; sequence/fallback/parallel defer to
their loops; a decorator ticks its child and applies its transform when the
transform is non-nil. -/
def tick {Ctx : Type} : Node Ctx → Ctx → Result × List Nat
  | .task id f, c => (f c, [id])
  | .conditional cond, c => (if cond c then .Success else .Failure, [])
  | .sequence cs, c => tickSeq cs c
  | .fallback cs, c => tickFb cs c
  | .parallel t cs, c =>
      let p := tickAll cs c
      (parallelAgg t cs.length (p.1.count .Success) (p.1.count .Failure), p.2)
  | .decorator fn ch, c =>
      let p := tick ch c
      match fn with
      | none => p
      | some g => (g c p.1, p.2)

/-- The loop of sequence.Tick: tick children left to right, return the first
Result that is not Success; if all children succeed, return Success. -/
def tickSeq {Ctx : Type} : List (Node Ctx) → Ctx → Result × List Nat
  | [], _ => (.Success, [])
  | x :: xs, c =>
      let p := tick x c
      if p.1 ≠ .Success then p
      else
        let q := tickSeq xs c
        (q.1, p.2 ++ q.2)

/-- The loop of fallback.Tick: tick children left to right, return the first
Result that is Success or Running; if all children fail, return Failure. -/
def tickFb {Ctx : Type} : List (Node Ctx) → Ctx → Result × List Nat
  | [], _ => (.Failure, [])
  | x :: xs, c =>
      let p := tick x c
      if p.1 = .Success ∨ p.1 = .Running then p
      else
        let q := tickFb xs c
        (q.1, p.2 ++ q.2)

/-- The loop of parallel.Tick: tick every child (no short-circuit), collecting
every child's Result in order and the concatenation of their traces. -/
def tickAll {Ctx : Type} : List (Node Ctx) → Ctx → List Result × List Nat
  | [], _ => ([], [])
  | x :: xs, c =>
      let p := tick x c
      let q := tickAll xs c
      (p.1 :: q.1, p.2 ++ q.2)

end

/-- A leaf task returning a constant Result, for concrete instances. -/
def constTask (id : Nat) (r : Result) : Node Unit := .task id (fun _ => r)

lemma tickAll_eq {Ctx : Type} (cs : List (Node Ctx)) (c : Ctx) :
    tickAll cs c = (cs.map fun n => (tick n c).1, (cs.map fun n => (tick n c).2).flatten) := by
  induction cs with
  | nil => simp [tickAll]
  | cons x xs ih => simp [tickAll, ih]

/-- Claim C1: a single Tick of a Parallel node ticks every child exactly once
(its trace is the concatenation of all children's traces, in order, with no
short-circuit) and then aggregates: Success when the Success count reaches the
threshold, else Failure when the Failure count reaches `n - threshold`, else
Running; in particular Parallel(2, [Success, Success, Failure]) = Success,
Parallel(2, [Failure, Failure, Success]) = Failure and
Parallel(1, [Running, Running]) = Running. -/
theorem parallel_ticks_every_child_once :
    (∀ (Ctx : Type) (t : Int) (cs : List (Node Ctx)) (c : Ctx),
      tick (.parallel t cs) c
        = (parallelAgg t cs.length
            ((cs.map fun n => (tick n c).1).count .Success)
            ((cs.map fun n => (tick n c).1).count .Failure),
           (cs.map fun n => (tick n c).2).flatten))
    ∧ tick (Node.parallel 2 [constTask 0 .Success, constTask 1 .Success, constTask 2 .Failure]) ()
        = (.Success, [0, 1, 2])
    ∧ tick (Node.parallel 2 [constTask 0 .Failure, constTask 1 .Failure, constTask 2 .Success]) ()
        = (.Failure, [0, 1, 2])
    ∧ tick (Node.parallel 1 [constTask 0 .Running, constTask 1 .Running]) ()
        = (.Running, [0, 1]) := by
  refine ⟨?_, by decide, by decide, by decide⟩
  intro Ctx t cs c
  simp [tick, tickAll_eq]

/-- Claim C2 is refuted on tracing.go: there the threshold and the counters
are `uint64`, so for threshold 3 over 2 children the Failure bound
`uint64(len(children)) - thresh` wraps to `2^64 - 1` and two Failure children
yield Running, not the Failure the claim derives from the exact (negative)
bound; node.go's `int` implementation does return Failure there, as the
claim, the doc comment and the spec describe. -/
theorem parallel_uint64_bound_wraps :
    parallelAggTracing 3 2 0 2 = .Running
    ∧ u64Sub 2 3 = 2 ^ 64 - 1
    ∧ parallelAgg 3 2 0 2 = .Failure
    ∧ (tick (Node.parallel 3 [constTask 0 .Failure, constTask 1 .Failure]) ()).1 = .Failure := by
  refine ⟨by decide, by decide, by decide, by decide⟩

lemma tickSeq_all_success {Ctx : Type} (cs : List (Node Ctx)) (c : Ctx)
    (h : ∀ n ∈ cs, (tick n c).1 = .Success) :
    tickSeq cs c = (.Success, (cs.map fun n => (tick n c).2).flatten) := by
  induction cs with
  | nil => simp [tickSeq]
  | cons x xs ih =>
    have hx := h x (by simp)
    simp [tickSeq, hx, ih (fun n hn => h n (by simp [hn]))]

lemma tickSeq_first {Ctx : Type} :
    ∀ (cs : List (Node Ctx)) (c : Ctx) (k : Nat) (hk : k < cs.length),
      (∀ (i : Nat) (hi : i < k), (tick (cs.get ⟨i, hi.trans hk⟩) c).1 = .Success) →
      (tick (cs.get ⟨k, hk⟩) c).1 ≠ .Success →
      tickSeq cs c
        = ((tick (cs.get ⟨k, hk⟩) c).1,
           ((cs.take (k+1)).map fun n => (tick n c).2).flatten) := by
  intro cs
  induction cs with
  | nil => intro c k hk; simp at hk
  | cons x xs ih =>
    intro c k hk hsucc hfail
    match k with
    | 0 =>
      simp only [List.get] at hfail ⊢
      simp [tickSeq, hfail]
    | j + 1 =>
      have hx : (tick x c).1 = .Success := hsucc 0 (Nat.succ_pos j)
      have hk' : j < xs.length := by simpa using hk
      have h := ih c j hk'
        (fun i hi => hsucc (i + 1) (Nat.succ_lt_succ hi))
        (by simpa using hfail)
      simp only [List.get] at hfail ⊢
      simp [tickSeq, hx, h]

/-- Claim C3: Sequence ticks its children strictly left to right and returns
the first child Result that is not Success, its trace covering exactly the
children up to and including that child; if every child succeeds it returns
Success having ticked them all; the empty Sequence (first conjunct at the
empty list) returns Success. -/
theorem sequence_first_non_success :
    ∀ (Ctx : Type) (cs : List (Node Ctx)) (c : Ctx),
      ((∀ n ∈ cs, (tick n c).1 = .Success) →
          tick (.sequence cs) c = (.Success, (cs.map fun n => (tick n c).2).flatten))
      ∧ (∀ (k : Nat) (hk : k < cs.length),
          (∀ (i : Nat) (hi : i < k), (tick (cs.get ⟨i, hi.trans hk⟩) c).1 = .Success) →
          (tick (cs.get ⟨k, hk⟩) c).1 ≠ .Success →
          tick (.sequence cs) c
            = ((tick (cs.get ⟨k, hk⟩) c).1,
               ((cs.take (k+1)).map fun n => (tick n c).2).flatten)) := by
  intro Ctx cs c
  constructor
  · intro h
    simpa [tick] using tickSeq_all_success cs c h
  · intro k hk hsucc hfail
    simpa [tick] using tickSeq_first cs c k hk hsucc hfail

/-- Witness for C3 at concrete inputs: a Running child at index 1 stops the
Sequence with Running, and the child at index 2 is never ticked; the empty
Sequence returns Success. -/
theorem sequence_first_non_success_witness :
    tick (Node.sequence [constTask 0 .Success, constTask 1 .Running, constTask 2 .Success]) ()
      = (.Running, [0, 1])
    ∧ tick (Node.sequence ([] : List (Node Unit))) () = (.Success, []) := by
  constructor
  · have h := (sequence_first_non_success Unit
        [constTask 0 .Success, constTask 1 .Running, constTask 2 .Success] ()).2 1
        (by decide)
        (fun i hi => by
          have hi0 : i = 0 := by omega
          subst hi0
          rfl)
        (by decide)
    rw [h]; decide
  · have h := (sequence_first_non_success Unit [] ()).1 (by simp)
    rw [h]; decide

lemma tickFb_all_failure {Ctx : Type} (cs : List (Node Ctx)) (c : Ctx)
    (h : ∀ n ∈ cs, (tick n c).1 = .Failure) :
    tickFb cs c = (.Failure, (cs.map fun n => (tick n c).2).flatten) := by
  induction cs with
  | nil => simp [tickFb]
  | cons x xs ih =>
    have hx := h x (by simp)
    simp [tickFb, hx, ih (fun n hn => h n (by simp [hn]))]

lemma tickFb_failure_iff {Ctx : Type} (cs : List (Node Ctx)) (c : Ctx)
    (h : ∀ n ∈ cs, (tick n c).1 ≠ .Invalid) :
    ((tickFb cs c).1 = .Failure ↔ ∀ n ∈ cs, (tick n c).1 = .Failure) := by
  induction cs with
  | nil => simp [tickFb]
  | cons x xs ih =>
    have hx := h x (by simp)
    have ihx := ih (fun n hn => h n (by simp [hn]))
    rcases hr : (tick x c).1 with _ | _ | _ | _
    · exact absurd hr hx
    · simp [tickFb, hr]
    · simp [tickFb, hr]
    · simp [tickFb, hr, ihx]

lemma tickFb_first {Ctx : Type} :
    ∀ (cs : List (Node Ctx)) (c : Ctx) (k : Nat) (hk : k < cs.length),
      (∀ (i : Nat) (hi : i < k),
        ¬((tick (cs.get ⟨i, hi.trans hk⟩) c).1 = .Success
          ∨ (tick (cs.get ⟨i, hi.trans hk⟩) c).1 = .Running)) →
      ((tick (cs.get ⟨k, hk⟩) c).1 = .Success ∨ (tick (cs.get ⟨k, hk⟩) c).1 = .Running) →
      tickFb cs c
        = ((tick (cs.get ⟨k, hk⟩) c).1,
           ((cs.take (k+1)).map fun n => (tick n c).2).flatten) := by
  intro cs
  induction cs with
  | nil => intro c k hk; simp at hk
  | cons x xs ih =>
    intro c k hk hpre hsr
    match k with
    | 0 =>
      simp only [List.get] at hsr ⊢
      simp [tickFb, hsr]
    | j + 1 =>
      have hx : ¬((tick x c).1 = .Success ∨ (tick x c).1 = .Running) :=
        hpre 0 (Nat.succ_pos j)
      have hk' : j < xs.length := by simpa using hk
      have h := ih c j hk'
        (fun i hi => hpre (i + 1) (Nat.succ_lt_succ hi))
        (by simpa using hsr)
      simp only [List.get] at hsr ⊢
      simp [tickFb, hx, h]

/-- Claim C4: Fallback ticks its children strictly left to right and returns
the first child Result that is Success or Running, its trace covering exactly
the children up to and including that child; under the Result contract (no
child returns Invalid) it returns Failure iff every child returned Failure;
when every child fails it returns Failure having ticked them all, and in
particular (at the empty list) the empty Fallback returns Failure. -/
theorem fallback_first_non_failure :
    ∀ (Ctx : Type) (cs : List (Node Ctx)) (c : Ctx),
      ((∀ n ∈ cs, (tick n c).1 = .Failure) →
          tick (.fallback cs) c = (.Failure, (cs.map fun n => (tick n c).2).flatten))
      ∧ ((∀ n ∈ cs, (tick n c).1 ≠ .Invalid) →
          ((tick (.fallback cs) c).1 = .Failure ↔ ∀ n ∈ cs, (tick n c).1 = .Failure))
      ∧ (∀ (k : Nat) (hk : k < cs.length),
          (∀ (i : Nat) (hi : i < k),
            ¬((tick (cs.get ⟨i, hi.trans hk⟩) c).1 = .Success
              ∨ (tick (cs.get ⟨i, hi.trans hk⟩) c).1 = .Running)) →
          ((tick (cs.get ⟨k, hk⟩) c).1 = .Success ∨ (tick (cs.get ⟨k, hk⟩) c).1 = .Running) →
          tick (.fallback cs) c
            = ((tick (cs.get ⟨k, hk⟩) c).1,
               ((cs.take (k+1)).map fun n => (tick n c).2).flatten)) := by
  intro Ctx cs c
  refine ⟨?_, ?_, ?_⟩
  · intro h
    simpa [tick] using tickFb_all_failure cs c h
  · intro h
    simpa [tick] using tickFb_failure_iff cs c h
  · intro k hk hpre hsr
    simpa [tick] using tickFb_first cs c k hk hpre hsr

/-- Witness for C4 at concrete inputs: a Success child at index 1 stops the
Fallback with Success and the child at index 2 is never ticked; an
all-Failure Fallback fails and its Failure is equivalent to all children
failing; the empty Fallback returns Failure. -/
theorem fallback_first_non_failure_witness :
    tick (Node.fallback [constTask 0 .Failure, constTask 1 .Success, constTask 2 .Running]) ()
      = (.Success, [0, 1])
    ∧ tick (Node.fallback [constTask 0 .Failure, constTask 1 .Failure]) ()
      = (.Failure, [0, 1])
    ∧ ((tick (Node.fallback [constTask 0 .Failure, constTask 1 .Failure]) ()).1 = .Failure
        ↔ ∀ n ∈ [constTask 0 .Failure, constTask 1 .Failure], (tick n ()).1 = .Failure)
    ∧ tick (Node.fallback ([] : List (Node Unit))) () = (.Failure, []) := by
  refine ⟨?_, ?_, ?_, ?_⟩
  · have h := (fallback_first_non_failure Unit
        [constTask 0 .Failure, constTask 1 .Success, constTask 2 .Running] ()).2.2 1
        (by decide)
        (fun i hi => by
          have hi0 : i = 0 := by omega
          subst hi0
          simp [List.get, constTask, tick])
        (by decide)
    rw [h]; decide
  · have h := (fallback_first_non_failure Unit
        [constTask 0 .Failure, constTask 1 .Failure] ()).1 (by decide)
    rw [h]; decide
  · exact (fallback_first_non_failure Unit
        [constTask 0 .Failure, constTask 1 .Failure] ()).2.1 (by decide)
  · have h := (fallback_first_non_failure Unit [] ()).1 (by simp)
    rw [h]; decide

/-- Claim C6: a Decorator whose transform is absent (a nil `fn` in the
source) returns its child's Result, and trace, unchanged. -/
theorem decorator_none_passes_through :
    ∀ (Ctx : Type) (ch : Node Ctx) (c : Ctx),
      tick (.decorator none ch) c = tick ch c := by
  intro Ctx ch c
  simp [tick]

/-- run.go's RunConfiguration: tick cadence and per-tick timeout, both Go
`time.Duration` values modelled in nanoseconds. -/
structure RunConfiguration where
  tickRate : Nat
  tickTimeout : Nat

/-- run.go's defaultRunConfig: `defaultTickRate = 10 * time.Second` and
`defaultTickTimeout = time.Second`, with `time.Second = 10^9` nanoseconds. -/
def defaultRunConfig : RunConfiguration :=
  { tickRate := 10 * 1000000000, tickTimeout := 1000000000 }

/-- The context-shaping effects of one iteration of Run's loop body, in
order: deriving the bounded child context from the outer one with a deadline
(`withTimeout` records the duration passed to `context.WithTimeout`), ticking
the root under it, and releasing it (`cancelTick` records the `cancel()`
call). -/
inductive RunEvent where
  | withTimeout (d : Nat)
  | tickRoot
  | cancelTick
deriving DecidableEq, Repr

/-- The loop body of run.go's Run: `context.WithTimeout(ctx,
config.tickTimeout)`, then `tree.Tick(tickCtx)`, then `cancel()`,
unconditionally in that order. -/
def runLoopBody (config : RunConfiguration) : List RunEvent :=
  [.withTimeout config.tickTimeout, .tickRoot, .cancelTick]

/-- The loop body of the unnamed snapshot's Run, which takes explicit
`tickRate` and `tickTimeout` arguments: it calls `context.WithTimeout(ctx,
tickRate)` — the cadence, not the timeout; its `tickTimeout` argument is
never read — then ticks and cancels. -/
def runLoopBodyAlt (tickRate tickTimeout : Nat) : List RunEvent :=
  [.withTimeout tickRate, .tickRoot, .cancelTick]

/-- Claim C5 on the unnamed snapshot's Run is a code bug: evaluated at the
documented defaults (cadence 10s, timeout 1s) that snapshot bounds the child
context by the 10s cadence, ignoring its per-tick timeout argument,
contradicting its own doc comment; run.go's Run does use the configured
per-tick timeout, releases the bounded context unconditionally right after
the tick, and its defaults are cadence 10s and timeout 1s. -/
theorem run_bounds_tick_with_timeout :
    runLoopBodyAlt (10 * 1000000000) 1000000000
      = [.withTimeout (10 * 1000000000), .tickRoot, .cancelTick]
    ∧ runLoopBody defaultRunConfig
      = [.withTimeout 1000000000, .tickRoot, .cancelTick]
    ∧ defaultRunConfig.tickRate = 10 * 1000000000
    ∧ defaultRunConfig.tickTimeout = 1000000000 := by
  refine ⟨by decide, by decide, by decide, by decide⟩

/-- run.go's Run loop, over the stream of Results the root's successive Tick
calls produce (`root i` is the Result of the tick of iteration `i`) and the
outer context's cancellation as observed during the wait after iteration `i`
(`cancelled i`).  Each iteration mirrors the source: tick; if the Result is
not Running return it; otherwise select on the outer context's Done channel
(return Failure) versus the cadence timer (loop).  `fuel` bounds how many
iterations are unrolled; `none` means the loop was still running. -/
def runLoop (root : Nat → Result) (cancelled : Nat → Bool) : Nat → Nat → Option Result
  | _, 0 => none
  | i, fuel + 1 =>
      let result := root i
      if result ≠ .Running then some result
      else if cancelled i then some .Failure
      else runLoop root cancelled (i + 1) fuel

lemma runLoop_from {root : Nat → Result} {cancelled : Nat → Bool} :
    ∀ (k s fuel : Nat),
      (∀ i, i < k → root (s + i) = .Running ∧ cancelled (s + i) = false) →
      k < fuel →
      ((root (s + k) ≠ .Running → runLoop root cancelled s fuel = some (root (s + k)))
        ∧ (root (s + k) = .Running → cancelled (s + k) = true →
            runLoop root cancelled s fuel = some .Failure)) := by
  intro k
  induction k with
  | zero =>
    intro s fuel hpre hfuel
    obtain ⟨f, rfl⟩ : ∃ f, fuel = f + 1 := ⟨fuel - 1, by omega⟩
    constructor
    · intro hstop
      simp only [Nat.add_zero] at hstop
      simp [runLoop, hstop]
    · intro hrun hcan
      simp only [Nat.add_zero] at hrun hcan
      simp [runLoop, hrun, hcan]
  | succ j ih =>
    intro s fuel hpre hfuel
    obtain ⟨f, rfl⟩ : ∃ f, fuel = f + 1 := ⟨fuel - 1, by omega⟩
    have h0 := hpre 0 (Nat.succ_pos j)
    simp only [Nat.add_zero] at h0
    have hstep : runLoop root cancelled s (f + 1) = runLoop root cancelled (s + 1) f := by
      simp [runLoop, h0.1, h0.2]
    have ih' := ih (s + 1) f
      (fun i hi => by
        have := hpre (i + 1) (Nat.succ_lt_succ hi)
        constructor
        · have e : s + (i + 1) = s + 1 + i := by omega
          rw [e] at this; exact this.1
        · have e : s + (i + 1) = s + 1 + i := by omega
          rw [e] at this; exact this.2)
      (by omega)
    have e : s + 1 + j = s + (j + 1) := by omega
    rw [e] at ih'
    exact ⟨fun h => hstep.trans (ih'.1 h), fun h hc => hstep.trans (ih'.2 h hc)⟩

/-- Claim C7: Run returns the first non-Running Result the root's Tick
produces (if the first `k` ticks are Running with no cancellation observed,
and tick `k` is not Running, Run returns tick `k`'s Result); and while the
root keeps returning Running, an outer cancellation observed during the wait
after a tick makes Run return Failure. -/
theorem run_returns_first_non_running :
    ∀ (root : Nat → Result) (cancelled : Nat → Bool) (k fuel : Nat),
      (∀ i, i < k → root i = .Running ∧ cancelled i = false) →
      k < fuel →
      ((root k ≠ .Running → runLoop root cancelled 0 fuel = some (root k))
        ∧ (root k = .Running → cancelled k = true →
            runLoop root cancelled 0 fuel = some .Failure)) := by
  intro root cancelled k fuel hpre hfuel
  have h := runLoop_from k 0 fuel (fun i hi => by simpa using hpre i hi) hfuel
  simpa using h

/-- Witness for C7 at concrete inputs: a root that is Running twice and then
succeeds makes Run return Success, and an always-Running root whose outer
context is cancelled from the third wait on makes Run return Failure. -/
theorem run_returns_first_non_running_witness :
    runLoop (fun i => if i < 2 then .Running else .Success) (fun _ => false) 0 5
      = some .Success
    ∧ runLoop (fun _ => .Running) (fun i => decide (2 ≤ i)) 0 9 = some .Failure := by
  constructor
  · have h := (run_returns_first_non_running
        (fun i => if i < 2 then .Running else .Success) (fun _ => false) 2 5
        (fun i hi => by
          constructor
          · simp [hi]
          · rfl)
        (by omega)).1 (by decide)
    exact h.trans (by decide)
  · exact (run_returns_first_non_running
        (fun _ => .Running) (fun i => decide (2 ≤ i)) 2 9
        (fun i hi => by
          refine ⟨rfl, ?_⟩
          simp [hi])
        (by omega)).2 rfl (by decide)

/-- The transform closure of the source's Invert: a switch sending Success to
Failure, Failure to Success, and anything else (Running, and also Invalid,
through the default branch) to itself. -/
def invertResult : Result → Result
  | .Success => .Failure
  | .Failure => .Success
  | r => r

/-- Invert: a Decorator over the child with the `invertResult` transform,
exactly as in the source. -/
def Invert {Ctx : Type} (child : Node Ctx) : Node Ctx :=
  .decorator (some fun _ r => invertResult r) child

/-- Ternary: a Fallback over the Sequence of the predicate and the whenTrue
node, followed by the whenFalse node, exactly as in the source. -/
def Ternary {Ctx : Type} (predicate whenTrue whenFalse : Node Ctx) : Node Ctx :=
  .fallback [.sequence [predicate, whenTrue], whenFalse]

/-- Claim C8: Ternary(p, t, f) is exactly Fallback(Sequence(p, t), f); its
first branch succeeds iff the predicate ticks Success and whenTrue ticks
Success (and then whenFalse is not ticked); and when the predicate ticks
Failure, whenTrue is never ticked (the trace holds only the predicate's and
whenFalse's leaves) and the Result is whenFalse's tick (whenFalse obeying
the Result contract of never returning Invalid). -/
theorem ternary_is_fallback_over_sequence :
    ∀ (Ctx : Type) (p t f : Node Ctx) (c : Ctx),
      tick (Ternary p t f) c = tick (.fallback [.sequence [p, t], f]) c
      ∧ ((tick (.sequence [p, t]) c).1 = .Success
          ↔ ((tick p c).1 = .Success ∧ (tick t c).1 = .Success))
      ∧ ((tick p c).1 = .Success → (tick t c).1 = .Success →
          tick (Ternary p t f) c = (.Success, (tick p c).2 ++ (tick t c).2))
      ∧ ((tick p c).1 = .Failure → (tick f c).1 ≠ .Invalid →
          tick (Ternary p t f) c = ((tick f c).1, (tick p c).2 ++ (tick f c).2)) := by
  intro Ctx p t f c
  refine ⟨rfl, ?_, ?_, ?_⟩
  · rcases hp : (tick p c).1 <;> rcases ht : (tick t c).1 <;>
      simp [tick, tickSeq, hp, ht]
  · intro hp ht
    simp [Ternary, tick, tickSeq, tickFb, hp, ht]
  · intro hp hf
    rcases hfr : (tick f c).1 with _ | _ | _ | _
    · exact absurd hfr hf
    · simp [Ternary, tick, tickSeq, tickFb, hp, hfr]
    · simp [Ternary, tick, tickSeq, tickFb, hp, hfr]
    · simp [Ternary, tick, tickSeq, tickFb, hp, hfr]

/-- Witness for C8 at concrete inputs: with predicate and whenTrue both
Success, Ternary succeeds having ticked only those two leaves; with a
Failure predicate, Ternary returns the whenFalse tick (Running) having never
ticked the whenTrue leaf. -/
theorem ternary_is_fallback_over_sequence_witness :
    tick (Ternary (constTask 0 .Success) (constTask 1 .Success) (constTask 2 .Running)) ()
      = (.Success, [0, 1])
    ∧ tick (Ternary (constTask 0 .Failure) (constTask 1 .Success) (constTask 2 .Running)) ()
      = (.Running, [0, 2]) := by
  constructor
  · have h := (ternary_is_fallback_over_sequence Unit
        (constTask 0 .Success) (constTask 1 .Success) (constTask 2 .Running) ()).2.2.1
        (by decide) (by decide)
    rw [h]; decide
  · have h := (ternary_is_fallback_over_sequence Unit
        (constTask 0 .Failure) (constTask 1 .Success) (constTask 2 .Running) ()).2.2.2
        (by decide) (by decide)
    rw [h]; decide

/-- Claim C9: for every child, Invert's tick returns Failure when the child
ticks Success, Success when the child ticks Failure, and Running unchanged
when the child ticks Running. -/
theorem invert_swaps_success_failure :
    ∀ (Ctx : Type) (ch : Node Ctx) (c : Ctx),
      ((tick ch c).1 = .Success → (tick (Invert ch) c).1 = .Failure)
      ∧ ((tick ch c).1 = .Failure → (tick (Invert ch) c).1 = .Success)
      ∧ ((tick ch c).1 = .Running → (tick (Invert ch) c).1 = .Running) := by
  intro Ctx ch c
  refine ⟨?_, ?_, ?_⟩ <;> intro h <;> simp [Invert, tick, invertResult, h]

/-- Witness for C9 at concrete leaves returning each terminal Result. -/
theorem invert_swaps_success_failure_witness :
    (tick (Invert (constTask 0 .Success)) ()).1 = .Failure
    ∧ (tick (Invert (constTask 0 .Failure)) ()).1 = .Success
    ∧ (tick (Invert (constTask 0 .Running)) ()).1 = .Running := by
  refine ⟨(invert_swaps_success_failure Unit (constTask 0 .Success) ()).1 (by decide),
    (invert_swaps_success_failure Unit (constTask 0 .Failure) ()).2.1 (by decide),
    (invert_swaps_success_failure Unit (constTask 0 .Running) ()).2.2 (by decide)⟩

/-- Claim C10: Invert(Invert(child)) ticks to exactly the child's Result,
because the Invert transform is an involution on all four Result values, its
default branch passing Running and Invalid through unchanged. -/
theorem invert_is_involution :
    ∀ (Ctx : Type) (ch : Node Ctx) (c : Ctx),
      (tick (Invert (Invert ch)) c).1 = (tick ch c).1
      ∧ ∀ r : Result, invertResult (invertResult r) = r := by
  intro Ctx ch c
  constructor
  · rcases h : (tick ch c).1 <;> simp [Invert, tick, invertResult, h]
  · intro r
    rcases r <;> rfl

end LittleAlbert
